import Mathlib

/-!
# decentnet network core — verification of the wire codec and swarm handlers

Shallow embedding of `src/network` (crate `decentnet_network`).  Pure data
and control logic is translated into executable Lean definitions; stateful
handler code becomes explicit state passing; Rust panics (`unwrap`,
`expect`, `panic!`) become an `Except String` error channel; the unchecked
`rkyv::archived_root` view of untrusted bytes becomes a `DecodeOutcome`
with an explicit undefined-behavior constructor.
-/

set_option maxHeartbeats 1000000

namespace DecentNet

/-! ## Protocol message domain (`src/network/src/network/protocol.rs`, `mod.rs`)

`NetworkNode`, `NetworkNodeRecord`, `DecentNetRequest`, `DecentNetResponse`
mirror the Rust declarations field for field and variant for variant. -/

/-- `NetworkNode { network_id: String, multiaddr: Vec<String> }` (mod.rs). -/
structure NetworkNode where
  network_id : String
  multiaddr : List String
deriving DecidableEq, Repr

/-- `NetworkNodeRecord { nodes: Vec<NetworkNode> }` (protocol.rs). -/
structure NetworkNodeRecord where
  nodes : List NetworkNode
deriving DecidableEq, Repr

/-- `enum DecentNetRequest { Ping, GetNetworkNodes, SendNodeRecord(NetworkNodeRecord) }`. -/
inductive DecentNetRequest where
  | Ping
  | GetNetworkNodes
  | SendNodeRecord (record : NetworkNodeRecord)
deriving DecidableEq, Repr

/-- `enum DecentNetResponse { Pong, Record(NetworkNodeRecord), GotNetworkRecord }`. -/
inductive DecentNetResponse where
  | Pong
  | Record (record : NetworkNodeRecord)
  | GotNetworkRecord
deriving DecidableEq, Repr

/-! ## Byte-level model of the rkyv archive format

The repository serializes with `rkyv` (`AllocSerializer::<256>` /
`archived_root`), a library outside this repository.  The model below keeps
the structural invariants of that format that the code relies on:

* out-of-line data (string contents, vector element arrays) is written
  first, the archived root is the final bytes of the buffer, and
  `archived_root` locates the root at `len - size_of::<Archived<T>>()`
  with **no validation whatsoever** — on a buffer shorter than the root
  size the pointer arithmetic underflows and the read is out of bounds;
* strings and vectors are represented by `(offset, length)` headers
  pointing backwards into the buffer;
* enums are a tag byte followed by the payload of the largest variant.

Model simplifications (documented, none load-bearing for the claims):
fields are packed without alignment padding, string payloads are stored as
one 32-bit code point per character instead of UTF-8, offsets are absolute
rather than relative, and size/offset fields idealize rkyv's 32-bit size
type as exact naturals (the low three limbs are genuine bytes, the top limb
absorbs any remainder; inbound frames are capped at 2048 bytes by
`read_request`/`read_response`, far below the 2^32 boundary). -/

/-- A buffer position holding a 4-limb little-endian size/offset field. -/
def writeU32 (n : Nat) : List Nat :=
  [n % 256, n / 256 % 256, n / 65536 % 256, n / 16777216]

/-- Read a 4-limb little-endian field at position `p`; `none` models an
out-of-bounds read. -/
def readU32 (buf : List Nat) (p : Nat) : Option Nat := do
  let b0 ← buf[p]?
  let b1 ← buf[p + 1]?
  let b2 ← buf[p + 2]?
  let b3 ← buf[p + 3]?
  pure (b0 + 256 * b1 + 65536 * b2 + 16777216 * b3)

/-- Archived bytes of one character (model: its code point as one field). -/
def serChar (c : Char) : List Nat := writeU32 c.toNat

/-- Archived payload of a character list, in order. -/
def serCharsData : List Char → List Nat
  | [] => []
  | c :: rest => serChar c ++ serCharsData rest

/-- Archived payload of a string (`str` bytes in rkyv). -/
def serStringData (s : String) : List Nat := serCharsData s.data

theorem writeU32_length (n : Nat) : (writeU32 n).length = 4 := rfl

theorem serChar_length (c : Char) : (serChar c).length = 4 := rfl

theorem readU32_append (pre : List Nat) (n : Nat) (post : List Nat) :
    readU32 (pre ++ (writeU32 n ++ post)) pre.length = some n := by
  have h0 : (pre ++ (writeU32 n ++ post))[pre.length]? = some (n % 256) := by
    rw [List.getElem?_append_right (Nat.le_refl _)]
    simp [writeU32]
  have h1 : (pre ++ (writeU32 n ++ post))[pre.length + 1]? = some (n / 256 % 256) := by
    rw [List.getElem?_append_right (by omega)]
    simp [writeU32]
  have h2 : (pre ++ (writeU32 n ++ post))[pre.length + 2]? = some (n / 65536 % 256) := by
    rw [List.getElem?_append_right (by omega)]
    simp [writeU32]
  have h3 : (pre ++ (writeU32 n ++ post))[pre.length + 3]? = some (n / 16777216) := by
    rw [List.getElem?_append_right (by omega)]
    simp [writeU32]
  simp only [readU32, h0, h1, h2, h3]
  show some (n % 256 + 256 * (n / 256 % 256) + 65536 * (n / 65536 % 256)
    + 16777216 * (n / 16777216)) = some n
  exact congrArg some (by omega)

/-- Reads that succeed on a buffer succeed unchanged on any extension. -/
theorem getElem?_append_of_some {buf ext : List Nat} {i x : Nat}
    (h : buf[i]? = some x) : (buf ++ ext)[i]? = some x := by
  have hi : i < buf.length := by
    by_contra hge
    rw [List.getElem?_eq_none (by omega)] at h
    exact Option.noConfusion h
  rw [List.getElem?_append_left hi]
  exact h

theorem readU32_mono {buf ext : List Nat} {p n : Nat}
    (h : readU32 buf p = some n) : readU32 (buf ++ ext) p = some n := by
  simp only [readU32, Option.pure_def, Option.bind_eq_bind, Option.bind_eq_some] at h ⊢
  obtain ⟨b0, h0, b1, h1, b2, h2, b3, h3, hv⟩ := h
  exact ⟨b0, getElem?_append_of_some h0, b1, getElem?_append_of_some h1,
    b2, getElem?_append_of_some h2, b3, getElem?_append_of_some h3, hv⟩

/-- Read `k` archived characters starting at `p` (the unchecked archived
view performs no UTF-8 validation; `Char.ofNat` stands for the raw
reinterpretation, which is exact on code points produced by `serChar`). -/
def readChars (buf : List Nat) (p k : Nat) : Option (List Char) :=
  match k with
  | 0 => some []
  | k + 1 => do
    let n ← readU32 buf p
    let rest ← readChars buf (p + 4) k
    pure (Char.ofNat n :: rest)

/-- Read an archived string whose `(offset, length)` header sits at `hdr`. -/
def deserString (buf : List Nat) (hdr : Nat) : Option String := do
  let off ← readU32 buf hdr
  let k ← readU32 buf (hdr + 4)
  let cs ← readChars buf off k
  pure (String.mk cs)

/-- Read `k` archived strings whose 8-byte headers sit contiguously at `arr`. -/
def deserStrings (buf : List Nat) (arr k : Nat) : Option (List String) :=
  match k with
  | 0 => some []
  | k + 1 => do
    let s ← deserString buf arr
    let rest ← deserStrings buf (arr + 8) k
    pure (s :: rest)

/-- Read an archived `NetworkNode` (16 bytes: string header + vec header)
at `pos`. -/
def deserNode (buf : List Nat) (pos : Nat) : Option NetworkNode := do
  let nid ← deserString buf pos
  let off ← readU32 buf (pos + 8)
  let k ← readU32 buf (pos + 12)
  let addrs ← deserStrings buf off k
  pure ⟨nid, addrs⟩

/-- Read `k` archived `NetworkNode`s whose 16-byte bodies sit at `arr`. -/
def deserNodes (buf : List Nat) (arr k : Nat) : Option (List NetworkNode) :=
  match k with
  | 0 => some []
  | k + 1 => do
    let n ← deserNode buf arr
    let rest ← deserNodes buf (arr + 16) k
    pure (n :: rest)

/-- Read an archived `NetworkNodeRecord` whose vec header sits at `hdr`. -/
def deserRecord (buf : List Nat) (hdr : Nat) : Option NetworkNodeRecord := do
  let off ← readU32 buf hdr
  let k ← readU32 buf (hdr + 4)
  let nodes ← deserNodes buf off k
  pure ⟨nodes⟩

/-! Serialization: children first, root last, mirroring
`AllocSerializer::serialize_value` (out-of-line data is written in field
order; each vector's element array follows its elements' own out-of-line
data; the archived root forms the final bytes of the buffer). -/

/-- Append each string's payload; return the buffer and per-string
`(offset, length)` resolvers. -/
def pushStringsData (buf : List Nat) (xs : List String) :
    List Nat × List (Nat × Nat) :=
  match xs with
  | [] => (buf, [])
  | x :: rest =>
    let off := buf.length
    let buf1 := buf ++ serStringData x
    let step := pushStringsData buf1 rest
    (step.1, (off, x.data.length) :: step.2)

/-- Contiguous array of archived string headers. -/
def stringHeaders (rs : List (Nat × Nat)) : List Nat :=
  match rs with
  | [] => []
  | r :: rest => writeU32 r.1 ++ writeU32 r.2 ++ stringHeaders rest

/-- Serialize a `Vec<String>`: element payloads, then the header array;
returns the vec's own `(offset, length)` resolver. -/
def pushVecString (buf : List Nat) (xs : List String) :
    List Nat × (Nat × Nat) :=
  let step := pushStringsData buf xs
  (step.1 ++ stringHeaders step.2, (step.1.length, xs.length))

/-- Append each node's out-of-line data (id payload, address payloads and
their header array); return per-node resolvers. -/
def pushNodesData (buf : List Nat) (nodes : List NetworkNode) :
    List Nat × List ((Nat × Nat) × (Nat × Nat)) :=
  match nodes with
  | [] => (buf, [])
  | n :: rest =>
    let idOff := buf.length
    let buf1 := buf ++ serStringData n.network_id
    let step1 := pushVecString buf1 n.multiaddr
    let step2 := pushNodesData step1.1 rest
    (step2.1, ((idOff, n.network_id.data.length), step1.2) :: step2.2)

/-- Contiguous array of archived `NetworkNode` bodies. -/
def nodeHeaders (rs : List ((Nat × Nat) × (Nat × Nat))) : List Nat :=
  match rs with
  | [] => []
  | r :: rest =>
    writeU32 r.1.1 ++ writeU32 r.1.2 ++ writeU32 r.2.1 ++ writeU32 r.2.2 ++ nodeHeaders rest

/-- Serialize a `Vec<NetworkNode>`; returns the vec's resolver. -/
def pushVecNodes (buf : List Nat) (nodes : List NetworkNode) :
    List Nat × (Nat × Nat) :=
  let step := pushNodesData buf nodes
  (step.1 ++ nodeHeaders step.2, (step.1.length, nodes.length))

/-! The archived roots.  Both enums archive to a tag byte followed by the
payload of the largest variant (the 8-byte record header), so the root is
9 model bytes; unit variants zero the payload. -/

/-- Size of `Archived<DecentNetRequest>` and `Archived<DecentNetResponse>`
in the model: the minimum length of any valid encoding. -/
def archivedRootSize : Nat := 9

/-- `From<DecentNetRequest> for Vec<u8>` (protocol.rs:61-67):
`AllocSerializer::<256>` archive of the request, root last. -/
def decentNetRequestToBytes (req : DecentNetRequest) : List Nat :=
  match req with
  | .Ping => 0 :: List.replicate 8 0
  | .GetNetworkNodes => 1 :: List.replicate 8 0
  | .SendNodeRecord r =>
    let step := pushVecNodes [] r.nodes
    step.1 ++ 2 :: (writeU32 step.2.1 ++ writeU32 step.2.2)

/-- `From<DecentNetResponse> for Vec<u8>` (protocol.rs:90-96). -/
def decentNetResponseToBytes (res : DecentNetResponse) : List Nat :=
  match res with
  | .Pong => 0 :: List.replicate 8 0
  | .Record r =>
    let step := pushVecNodes [] r.nodes
    step.1 ++ 1 :: (writeU32 step.2.1 ++ writeU32 step.2.2)
  | .GotNetworkRecord => 2 :: List.replicate 8 0

/-- Outcome of the unchecked decode paths.  The `From<Vec<u8>>` impls have
no error return at all: they either produce a value or misbehave.
`undefinedBehavior` marks every execution in which
`unsafe { archived_root::<T>(&bytes[..]) }` reads out of bounds (buffer
shorter than the archived root, or a header pointing outside the buffer)
or reinterprets an invalid tag. -/
inductive DecodeOutcome (α : Type) where
  | ok (value : α)
  | undefinedBehavior
deriving DecidableEq, Repr

/-- `From<Vec<u8>> for DecentNetRequest` (protocol.rs:46-59):
`unsafe { archived_root::<DecentNetRequest>(&bytes[..]) }` locates the root
at `len - size_of::<Archived<DecentNetRequest>>()` with no validation, then
deserializes through it.  A buffer shorter than the root makes the offset
computation underflow: out-of-bounds, modeled as `undefinedBehavior`. -/
def decentNetRequestFromBytes (buf : List Nat) : DecodeOutcome DecentNetRequest :=
  if buf.length < archivedRootSize then .undefinedBehavior
  else
    match buf[buf.length - 9]? with
    | none => .undefinedBehavior
    | some tag =>
      if tag = 0 then .ok .Ping
      else if tag = 1 then .ok .GetNetworkNodes
      else if tag = 2 then
        match deserRecord buf (buf.length - 9 + 1) with
        | some r => .ok (.SendNodeRecord r)
        | none => .undefinedBehavior
      else .undefinedBehavior

/-- `From<Vec<u8>> for DecentNetResponse` (protocol.rs:76-88), same
unchecked root access. -/
def decentNetResponseFromBytes (buf : List Nat) : DecodeOutcome DecentNetResponse :=
  if buf.length < archivedRootSize then .undefinedBehavior
  else
    match buf[buf.length - 9]? with
    | none => .undefinedBehavior
    | some tag =>
      if tag = 0 then .ok .Pong
      else if tag = 1 then
        match deserRecord buf (buf.length - 9 + 1) with
        | some r => .ok (.Record r)
        | none => .undefinedBehavior
      else if tag = 2 then .ok .GotNetworkRecord
      else .undefinedBehavior

/-! ### Reads are stable under buffer extension -/

theorem readChars_mono {buf ext : List Nat} {p k : Nat} {cs : List Char}
    (h : readChars buf p k = some cs) : readChars (buf ++ ext) p k = some cs := by
  induction k generalizing p cs with
  | zero => simpa [readChars] using h
  | succ k ih =>
    simp only [readChars, Option.pure_def, Option.bind_eq_bind, Option.bind_eq_some] at h ⊢
    obtain ⟨n, hn, rest, hrest, hv⟩ := h
    exact ⟨n, readU32_mono hn, rest, ih hrest, hv⟩

theorem deserString_mono {buf ext : List Nat} {p : Nat} {s : String}
    (h : deserString buf p = some s) : deserString (buf ++ ext) p = some s := by
  simp only [deserString, Option.pure_def, Option.bind_eq_bind, Option.bind_eq_some] at h ⊢
  obtain ⟨off, hoff, k, hk, cs, hcs, hv⟩ := h
  exact ⟨off, readU32_mono hoff, k, readU32_mono hk, cs, readChars_mono hcs, hv⟩

theorem deserStrings_mono {buf ext : List Nat} {p k : Nat} {xs : List String}
    (h : deserStrings buf p k = some xs) : deserStrings (buf ++ ext) p k = some xs := by
  induction k generalizing p xs with
  | zero => simpa [deserStrings] using h
  | succ k ih =>
    simp only [deserStrings, Option.pure_def, Option.bind_eq_bind, Option.bind_eq_some] at h ⊢
    obtain ⟨s, hs, rest, hrest, hv⟩ := h
    exact ⟨s, deserString_mono hs, rest, ih hrest, hv⟩

theorem deserNode_mono {buf ext : List Nat} {p : Nat} {n : NetworkNode}
    (h : deserNode buf p = some n) : deserNode (buf ++ ext) p = some n := by
  simp only [deserNode, Option.pure_def, Option.bind_eq_bind, Option.bind_eq_some] at h ⊢
  obtain ⟨nid, hnid, off, hoff, k, hk, addrs, haddrs, hv⟩ := h
  exact ⟨nid, deserString_mono hnid, off, readU32_mono hoff, k, readU32_mono hk,
    addrs, deserStrings_mono haddrs, hv⟩

theorem deserNodes_mono {buf ext : List Nat} {p k : Nat} {ns : List NetworkNode}
    (h : deserNodes buf p k = some ns) : deserNodes (buf ++ ext) p k = some ns := by
  induction k generalizing p ns with
  | zero => simpa [deserNodes] using h
  | succ k ih =>
    simp only [deserNodes, Option.pure_def, Option.bind_eq_bind, Option.bind_eq_some] at h ⊢
    obtain ⟨n, hn, rest, hrest, hv⟩ := h
    exact ⟨n, deserNode_mono hn, rest, ih hrest, hv⟩

/-! ### Serialized data reads back -/

theorem readChars_append (pre : List Nat) (cs : List Char) :
    readChars (pre ++ serCharsData cs) pre.length cs.length = some cs := by
  induction cs generalizing pre with
  | nil => simp [readChars]
  | cons c rest ih =>
    have h1 : readU32 (pre ++ serCharsData (c :: rest)) pre.length = some c.toNat := by
      simpa [serCharsData, serChar] using readU32_append pre c.toNat (serCharsData rest)
    have h2 : readChars (pre ++ serCharsData (c :: rest)) (pre.length + 4) rest.length
        = some rest := by
      have h := ih (pre ++ serChar c)
      rw [List.append_assoc] at h
      simpa [serCharsData, serChar_length] using h
    simp only [List.length_cons, readChars, Option.pure_def, Option.bind_eq_bind,
      Option.bind_eq_some]
    exact ⟨c.toNat, h1, rest, h2, by rw [Char.ofNat_toNat]⟩

theorem readChars_at (pre mid : List Nat) (cs : List Char) :
    readChars ((pre ++ serCharsData cs) ++ mid) pre.length cs.length = some cs :=
  readChars_mono (readChars_append pre cs)

/-- The resolver `r` describes string `x` inside `buf`. -/
def StrRes (buf : List Nat) (r : Nat × Nat) (x : String) : Prop :=
  r.2 = x.data.length ∧ readChars buf r.1 r.2 = some x.data

theorem strRes_mono {buf ext : List Nat} {r : Nat × Nat} {x : String}
    (h : StrRes buf r x) : StrRes (buf ++ ext) r x :=
  ⟨h.1, readChars_mono h.2⟩

theorem pushStringsData_spec (xs : List String) (buf : List Nat) :
    (∃ ext, (pushStringsData buf xs).1 = buf ++ ext) ∧
    List.Forall₂ (StrRes (pushStringsData buf xs).1) (pushStringsData buf xs).2 xs := by
  induction xs generalizing buf with
  | nil => exact ⟨⟨[], by simp [pushStringsData]⟩, by simp [pushStringsData]⟩
  | cons x rest ih =>
    obtain ⟨⟨ext1, hext1⟩, hfa⟩ := ih (buf ++ serStringData x)
    simp only [pushStringsData]
    refine ⟨⟨serStringData x ++ ext1, by rw [hext1, List.append_assoc]⟩, ?_⟩
    refine List.Forall₂.cons ⟨rfl, ?_⟩ hfa
    rw [hext1]
    exact readChars_at buf ext1 x.data

theorem readU32_of_eq {buf : List Nat} {p n : Nat} (pre mid : List Nat)
    (hbuf : buf = (pre ++ writeU32 n) ++ mid) (hp : p = pre.length) :
    readU32 buf p = some n := by
  subst hbuf hp
  rw [List.append_assoc]
  exact readU32_append pre n mid

theorem deserStrings_headers {buf : List Nat} {rs : List (Nat × Nat)} {xs : List String}
    (hfa : List.Forall₂ (StrRes buf) rs xs) :
    ∀ (pre mid : List Nat) (p : Nat), buf = (pre ++ stringHeaders rs) ++ mid →
      p = pre.length → deserStrings buf p xs.length = some xs := by
  induction hfa with
  | nil => intro pre mid p hbuf hp; simp [deserStrings]
  | @cons r x rs2 xs2 hstr hfa2 ih =>
    intro pre mid p hbuf hp
    have hbuf1 : buf = (pre ++ writeU32 r.1) ++ (writeU32 r.2 ++ (stringHeaders rs2 ++ mid)) := by
      simp only [hbuf, stringHeaders, List.append_assoc]
    have hr1 : readU32 buf p = some r.1 :=
      readU32_of_eq pre (writeU32 r.2 ++ (stringHeaders rs2 ++ mid)) hbuf1 hp
    have hbuf2 : buf = ((pre ++ writeU32 r.1) ++ writeU32 r.2) ++ (stringHeaders rs2 ++ mid) := by
      simp only [hbuf, stringHeaders, List.append_assoc]
    have hr2 : readU32 buf (p + 4) = some r.2 :=
      readU32_of_eq (pre ++ writeU32 r.1) (stringHeaders rs2 ++ mid) hbuf2
        (by simp [hp, writeU32_length])
    have hds : deserString buf p = some x := by
      simp only [deserString, Option.pure_def, Option.bind_eq_bind, Option.bind_eq_some]
      exact ⟨r.1, hr1, r.2, hr2, x.data, hstr.2, rfl⟩
    have hrest : deserStrings buf (p + 8) xs2.length = some xs2 :=
      ih ((pre ++ writeU32 r.1) ++ writeU32 r.2) mid (p + 8)
        (by simp only [hbuf, stringHeaders, List.append_assoc])
        (by simp [hp, writeU32_length])
    simp only [List.length_cons, deserStrings, Option.pure_def, Option.bind_eq_bind,
      Option.bind_eq_some]
    exact ⟨x, hds, xs2, hrest, rfl⟩

/-- The resolver pair describes vector `xs` inside `buf`. -/
def VecStrRes (buf : List Nat) (r : Nat × Nat) (xs : List String) : Prop :=
  r.2 = xs.length ∧ deserStrings buf r.1 r.2 = some xs

theorem vecStrRes_mono {buf ext : List Nat} {r : Nat × Nat} {xs : List String}
    (h : VecStrRes buf r xs) : VecStrRes (buf ++ ext) r xs :=
  ⟨h.1, deserStrings_mono h.2⟩

theorem pushVecString_spec (xs : List String) (buf : List Nat) :
    (∃ ext, (pushVecString buf xs).1 = buf ++ ext) ∧
    VecStrRes (pushVecString buf xs).1 (pushVecString buf xs).2 xs := by
  obtain ⟨⟨ext1, hext1⟩, hfa⟩ := pushStringsData_spec xs buf
  simp only [pushVecString]
  constructor
  · exact ⟨ext1 ++ stringHeaders (pushStringsData buf xs).2, by
      rw [hext1, List.append_assoc]⟩
  · refine ⟨rfl, ?_⟩
    have hfa2 : List.Forall₂
        (StrRes ((pushStringsData buf xs).1 ++ stringHeaders (pushStringsData buf xs).2))
        (pushStringsData buf xs).2 xs :=
      List.Forall₂.imp (fun _ _ h => strRes_mono h) hfa
    exact deserStrings_headers hfa2 (pushStringsData buf xs).1 []
      (pushStringsData buf xs).1.length (by simp) rfl

/-- The resolver pair describes node `n` inside `buf`. -/
def NodeRes (buf : List Nat) (r : (Nat × Nat) × (Nat × Nat)) (n : NetworkNode) : Prop :=
  r.1.2 = n.network_id.data.length ∧
  readChars buf r.1.1 r.1.2 = some n.network_id.data ∧
  VecStrRes buf r.2 n.multiaddr

theorem nodeRes_mono {buf ext : List Nat} {r : (Nat × Nat) × (Nat × Nat)} {n : NetworkNode}
    (h : NodeRes buf r n) : NodeRes (buf ++ ext) r n :=
  ⟨h.1, readChars_mono h.2.1, vecStrRes_mono h.2.2⟩

theorem pushNodesData_spec (nodes : List NetworkNode) (buf : List Nat) :
    (∃ ext, (pushNodesData buf nodes).1 = buf ++ ext) ∧
    List.Forall₂ (NodeRes (pushNodesData buf nodes).1) (pushNodesData buf nodes).2 nodes := by
  induction nodes generalizing buf with
  | nil => exact ⟨⟨[], by simp [pushNodesData]⟩, by simp [pushNodesData]⟩
  | cons n rest ih =>
    obtain ⟨⟨extv, hextv⟩, hvec⟩ :=
      pushVecString_spec n.multiaddr (buf ++ serStringData n.network_id)
    obtain ⟨⟨ext2, hext2⟩, hfa⟩ :=
      ih (pushVecString (buf ++ serStringData n.network_id) n.multiaddr).1
    simp only [pushNodesData]
    refine ⟨⟨serStringData n.network_id ++ (extv ++ ext2), ?_⟩, ?_⟩
    · rw [hext2, hextv]
      simp [List.append_assoc]
    · refine List.Forall₂.cons ⟨rfl, ?_, ?_⟩ hfa
      · rw [hext2, hextv, List.append_assoc]
        exact readChars_at buf (extv ++ ext2) n.network_id.data
      · rw [hext2]
        exact vecStrRes_mono hvec

theorem deserNodes_headers {buf : List Nat} {rs : List ((Nat × Nat) × (Nat × Nat))}
    {ns : List NetworkNode} (hfa : List.Forall₂ (NodeRes buf) rs ns) :
    ∀ (pre mid : List Nat) (p : Nat), buf = (pre ++ nodeHeaders rs) ++ mid →
      p = pre.length → deserNodes buf p ns.length = some ns := by
  induction hfa with
  | nil => intro pre mid p hbuf hp; simp [deserNodes]
  | @cons r n rs2 ns2 hnode hfa2 ih =>
    intro pre mid p hbuf hp
    have hr1 : readU32 buf p = some r.1.1 :=
      readU32_of_eq pre
        (writeU32 r.1.2 ++ (writeU32 r.2.1 ++ (writeU32 r.2.2 ++ (nodeHeaders rs2 ++ mid))))
        (by simp only [hbuf, nodeHeaders, List.append_assoc]) hp
    have hr2 : readU32 buf (p + 4) = some r.1.2 :=
      readU32_of_eq (pre ++ writeU32 r.1.1)
        (writeU32 r.2.1 ++ (writeU32 r.2.2 ++ (nodeHeaders rs2 ++ mid)))
        (by simp only [hbuf, nodeHeaders, List.append_assoc])
        (by simp [hp, writeU32_length])
    have hr3 : readU32 buf (p + 8) = some r.2.1 :=
      readU32_of_eq ((pre ++ writeU32 r.1.1) ++ writeU32 r.1.2)
        (writeU32 r.2.2 ++ (nodeHeaders rs2 ++ mid))
        (by simp only [hbuf, nodeHeaders, List.append_assoc])
        (by simp [hp, writeU32_length])
    have hr4 : readU32 buf (p + 12) = some r.2.2 :=
      readU32_of_eq (((pre ++ writeU32 r.1.1) ++ writeU32 r.1.2) ++ writeU32 r.2.1)
        (nodeHeaders rs2 ++ mid)
        (by simp only [hbuf, nodeHeaders, List.append_assoc])
        (by simp [hp, writeU32_length])
    have hds : deserString buf p = some n.network_id := by
      simp only [deserString, Option.pure_def, Option.bind_eq_bind, Option.bind_eq_some]
      exact ⟨r.1.1, hr1, r.1.2, hr2, n.network_id.data, hnode.2.1, rfl⟩
    have hnd : deserNode buf p = some n := by
      simp only [deserNode, Option.pure_def, Option.bind_eq_bind, Option.bind_eq_some]
      exact ⟨n.network_id, hds, r.2.1, hr3, r.2.2, hr4, n.multiaddr, hnode.2.2.2, rfl⟩
    have hrest : deserNodes buf (p + 16) ns2.length = some ns2 :=
      ih ((((pre ++ writeU32 r.1.1) ++ writeU32 r.1.2) ++ writeU32 r.2.1) ++ writeU32 r.2.2)
        mid (p + 16)
        (by simp only [hbuf, nodeHeaders, List.append_assoc])
        (by simp [hp, writeU32_length])
    simp only [List.length_cons, deserNodes, Option.pure_def, Option.bind_eq_bind,
      Option.bind_eq_some]
    exact ⟨n, hnd, ns2, hrest, rfl⟩

/-- The resolver pair describes the node vector `ns` inside `buf`. -/
def VecNodeRes (buf : List Nat) (r : Nat × Nat) (ns : List NetworkNode) : Prop :=
  r.2 = ns.length ∧ deserNodes buf r.1 r.2 = some ns

theorem vecNodeRes_mono {buf ext : List Nat} {r : Nat × Nat} {ns : List NetworkNode}
    (h : VecNodeRes buf r ns) : VecNodeRes (buf ++ ext) r ns :=
  ⟨h.1, deserNodes_mono h.2⟩

theorem pushVecNodes_spec (ns : List NetworkNode) (buf : List Nat) :
    (∃ ext, (pushVecNodes buf ns).1 = buf ++ ext) ∧
    VecNodeRes (pushVecNodes buf ns).1 (pushVecNodes buf ns).2 ns := by
  obtain ⟨⟨ext1, hext1⟩, hfa⟩ := pushNodesData_spec ns buf
  simp only [pushVecNodes]
  constructor
  · exact ⟨ext1 ++ nodeHeaders (pushNodesData buf ns).2, by rw [hext1, List.append_assoc]⟩
  · refine ⟨rfl, ?_⟩
    have hfa2 : List.Forall₂
        (NodeRes ((pushNodesData buf ns).1 ++ nodeHeaders (pushNodesData buf ns).2))
        (pushNodesData buf ns).2 ns :=
      List.Forall₂.imp (fun _ _ h => nodeRes_mono h) hfa
    exact deserNodes_headers hfa2 (pushNodesData buf ns).1 []
      (pushNodesData buf ns).1.length (by simp) rfl

/-! ### Round trip -/

theorem roundtrip_payload (nodes : List NetworkNode) (tag : Nat) :
    deserRecord
      ((pushVecNodes [] nodes).1 ++
        tag :: (writeU32 (pushVecNodes [] nodes).2.1 ++ writeU32 (pushVecNodes [] nodes).2.2))
      ((pushVecNodes [] nodes).1.length + 1) = some ⟨nodes⟩ := by
  obtain ⟨_, hvec⟩ := pushVecNodes_spec nodes []
  have hr1 : readU32
      ((pushVecNodes [] nodes).1 ++
        tag :: (writeU32 (pushVecNodes [] nodes).2.1 ++ writeU32 (pushVecNodes [] nodes).2.2))
      ((pushVecNodes [] nodes).1.length + 1) = some (pushVecNodes [] nodes).2.1 :=
    readU32_of_eq ((pushVecNodes [] nodes).1 ++ [tag]) (writeU32 (pushVecNodes [] nodes).2.2)
      (by simp [List.append_assoc]) (by simp)
  have hr2 : readU32
      ((pushVecNodes [] nodes).1 ++
        tag :: (writeU32 (pushVecNodes [] nodes).2.1 ++ writeU32 (pushVecNodes [] nodes).2.2))
      ((pushVecNodes [] nodes).1.length + 5) = some (pushVecNodes [] nodes).2.2 :=
    readU32_of_eq (((pushVecNodes [] nodes).1 ++ [tag]) ++ writeU32 (pushVecNodes [] nodes).2.1)
      [] (by simp [List.append_assoc]) (by simp [writeU32_length])
  have hnodes : deserNodes
      ((pushVecNodes [] nodes).1 ++
        tag :: (writeU32 (pushVecNodes [] nodes).2.1 ++ writeU32 (pushVecNodes [] nodes).2.2))
      (pushVecNodes [] nodes).2.1 (pushVecNodes [] nodes).2.2 = some nodes :=
    deserNodes_mono hvec.2
  simp only [deserRecord, Option.pure_def, Option.bind_eq_bind, Option.bind_eq_some]
  exact ⟨(pushVecNodes [] nodes).2.1, hr1, (pushVecNodes [] nodes).2.2, hr2, nodes, hnodes, rfl⟩

theorem roundtrip_request (m : DecentNetRequest) :
    decentNetRequestFromBytes (decentNetRequestToBytes m) = .ok m := by
  match m with
  | .Ping => rfl
  | .GetNetworkNodes => rfl
  | .SendNodeRecord r =>
    have hlen : (decentNetRequestToBytes (DecentNetRequest.SendNodeRecord r)).length
        = (pushVecNodes [] r.nodes).1.length + 9 := by
      simp [decentNetRequestToBytes, writeU32]
    have hget : (decentNetRequestToBytes (DecentNetRequest.SendNodeRecord r))[
        (pushVecNodes [] r.nodes).1.length]? = some 2 := by
      simp only [decentNetRequestToBytes]
      rw [List.getElem?_append_right (Nat.le_refl _)]
      simp
    rw [decentNetRequestFromBytes, if_neg (by rw [hlen]; simp only [archivedRootSize]; omega), hlen]
    simp only [Nat.add_sub_cancel, hget]
    have hrec := roundtrip_payload r.nodes 2
    simp only [decentNetRequestToBytes] at hrec ⊢
    rw [hrec]
    rfl

theorem roundtrip_response (m : DecentNetResponse) :
    decentNetResponseFromBytes (decentNetResponseToBytes m) = .ok m := by
  match m with
  | .Pong => rfl
  | .GotNetworkRecord => rfl
  | .Record r =>
    have hlen : (decentNetResponseToBytes (DecentNetResponse.Record r)).length
        = (pushVecNodes [] r.nodes).1.length + 9 := by
      simp [decentNetResponseToBytes, writeU32]
    have hget : (decentNetResponseToBytes (DecentNetResponse.Record r))[
        (pushVecNodes [] r.nodes).1.length]? = some 1 := by
      simp only [decentNetResponseToBytes]
      rw [List.getElem?_append_right (Nat.le_refl _)]
      simp
    rw [decentNetResponseFromBytes, if_neg (by rw [hlen]; simp only [archivedRootSize]; omega), hlen]
    simp only [Nat.add_sub_cancel, hget]
    have hrec := roundtrip_payload r.nodes 1
    simp only [decentNetResponseToBytes] at hrec ⊢
    rw [hrec]
    rfl

/-! ## Peer identifiers, multiaddresses, configuration -/

/-- A libp2p peer identifier, modeled by its canonical base58 rendering
(two libp2p `PeerId`s are equal exactly when their base58 strings are). -/
structure PeerId where
  b58 : String
deriving DecidableEq, Repr

/-- `PeerId::to_base58`. -/
def PeerId.to_base58 (p : PeerId) : String := p.b58

/-- A multiaddress in its canonical string form (libp2p renders and parses
multiaddrs through exactly this form). -/
abbrev Multiaddr := String

/-- `Multiaddr::with(Protocol::P2p(id))`: appends a `/p2p/<base58>`
segment. -/
def multiaddr_with_p2p (a : Multiaddr) (p : PeerId) : Multiaddr :=
  a ++ "/p2p/" ++ p.b58

/-- `Multiaddr::with(Protocol::P2pCircuit)`: appends `/p2p-circuit`. -/
def multiaddr_with_circuit (a : Multiaddr) : Multiaddr :=
  a ++ "/p2p-circuit"

/-- `BootNode { network_id: NetworkId, multiaddr: Multiaddr }` (mod.rs). -/
structure BootNode where
  network_id : PeerId
  multiaddr : Multiaddr
deriving DecidableEq, Repr

/-- Modelled from the spec: `config.rs` is declared in `mod.rs` but is not
among the sources.  Spec §3 "NetworkConfig (a.k.a BootstrapConfig)" lists
the attributes: ordered boot node list, `server_mode`, `relay_dial_mode`,
`local_discovery`, `debug_mode` flags, default listen port, active
listener handles, and an optional rendezvous discovery cookie (opaque). -/
structure NetworkConfig where
  boot_nodes : List BootNode
  server_mode : Bool
  relay_dial_mode : Bool
  local_discovery : Bool
  debug_mode : Bool
  default_port : Nat
  listener_ids : List Nat
  rendezvous_cookie : Option Nat
deriving DecidableEq, Repr

/-- `Network::get_relayed_listening_addr` (behaviour.rs:221-228): the first
boot node's address extended with `/p2p/<boot id>/p2p-circuit`.  `none`
models the `first().unwrap()` panic on an empty boot list. -/
def get_relayed_listening_addr (config : NetworkConfig) : Option Multiaddr :=
  config.boot_nodes.head?.map fun relay_node =>
    multiaddr_with_circuit (multiaddr_with_p2p relay_node.multiaddr relay_node.network_id)

/-- `DecentNetworkBehaviour::get_relayed_addr` (handler.rs:999-1008): the
listening form plus a trailing `/p2p/<local id>` segment. -/
def get_relayed_addr (config : NetworkConfig) (local_id : PeerId) : Option Multiaddr :=
  config.boot_nodes.head?.map fun node =>
    multiaddr_with_p2p
      (multiaddr_with_circuit (multiaddr_with_p2p node.multiaddr node.network_id)) local_id

/-! ## Routing table -/

/-- Routing-table snapshot: one `(peer, addresses)` entry per peer, in
bucket iteration order (none of the claims depends on the bucket split,
so the buckets are flattened). -/
abbrev RoutingTable := List (PeerId × List Multiaddr)

/-- libp2p `Kademlia::add_address` per its documented contract (the table
implementation is a library outside this repository; spec §4.3: idempotent
insertion into a deduplicated address set, lookup of an unknown peer is
empty). -/
def add_address (kb : RoutingTable) (pid : PeerId) (addr : Multiaddr) : RoutingTable :=
  match kb with
  | [] => [(pid, [addr])]
  | e :: rest =>
    if e.1 = pid then (e.1, if addr ∈ e.2 then e.2 else e.2 ++ [addr]) :: rest
    else e :: add_address rest pid addr

/-- Modelled from the spec: `utils.rs` (`get_external_addrs`) is declared
in `mod.rs` but is not among the sources.  The spec treats a peer's
address list as an opaque snapshot payload, so the model passes it through
unchanged; no claim depends on the address values it returns. -/
def get_external_addrs (addrs : List Multiaddr) : List Multiaddr := addrs

/-- `Network::get_known_nodes` (behaviour.rs:179-204): snapshot of the
routing table with every configured boot node filtered out. -/
def get_known_nodes (kb : RoutingTable) (config : NetworkConfig) :
    List (PeerId × List Multiaddr) :=
  let boot_node_ids := config.boot_nodes.map fun boot_node => boot_node.network_id
  kb.filterMap fun e =>
    if boot_node_ids.contains e.1 then none
    else some (e.1, get_external_addrs e.2)

/-! ## `get_network_record` and `load_node_record` (handler.rs:927-1008) -/

/-- The filter closure inside `get_network_record` (handler.rs:943-955):
keeps entries that are not boot nodes and differ from the requester;
`panic!("Requester id is None")` — modeled as `.error` — fires as soon as
a non-boot entry is examined while `requester_id` is `None`. -/
def network_record_filter (boot_node_ids : List String) (requester_id : Option PeerId)
    (network_id : PeerId) : Except String Bool :=
  if ¬ boot_node_ids.contains network_id.to_base58 then
    match requester_id with
    | none => .error "Requester id is None"
    | some r => .ok (r.to_base58 ≠ network_id.to_base58)
  else .ok false

/-- The filtered traversal of the routing table inside
`get_network_record` (handler.rs:940-968), producing wire `NetworkNode`s
(base58 id, stringified external addresses). -/
def network_record_nodes (boot_node_ids : List String) (requester_id : Option PeerId)
    (kb : RoutingTable) : Except String (List NetworkNode) :=
  match kb with
  | [] => .ok []
  | e :: rest =>
    match network_record_filter boot_node_ids requester_id e.1 with
    | .error msg => .error msg
    | .ok keep =>
      match network_record_nodes boot_node_ids requester_id rest with
      | .error msg => .error msg
      | .ok tail =>
        if keep then .ok (⟨e.1.to_base58, get_external_addrs e.2⟩ :: tail)
        else .ok tail

/-- `DecentNetworkBehaviour::get_network_record` (handler.rs:927-972). -/
def get_network_record (kb : RoutingTable) (requester_id : Option PeerId)
    (config : NetworkConfig) : Except String NetworkNodeRecord :=
  (network_record_nodes (config.boot_nodes.map fun boot_node => boot_node.network_id.to_base58)
    requester_id kb).map fun nodes => ⟨nodes⟩

/-- The `NewListenAddr` arm of `handle_swarm_event` (handler.rs:82-106):
the listener id is recorded first; then, when not in relay-dial mode and
the address equals this node's own relayed address, the code calls
`swarm.remove_listener` on every recorded id EXCEPT the event's own
(`filter(|id| *id != listener_id)`).  Returns the updated config and the
ids passed to `remove_listener`. -/
def handle_new_listen_addr (config : NetworkConfig) (local_peer_id : PeerId)
    (listener_id : Nat) (address : Multiaddr) :
    Except String (NetworkConfig × List Nat) :=
  let config1 := { config with listener_ids := config.listener_ids ++ [listener_id] }
  if ¬ config1.relay_dial_mode then
    match get_relayed_addr config1 local_peer_id with
    | none => .error "called Option unwrap on a None value"
    | some relayed =>
      if address = relayed then
        .ok (config1, config1.listener_ids.filter fun id => id ≠ listener_id)
      else .ok (config1, [])
  else .ok (config1, [])

/-- Outcome of a ping attempt as delivered by the ping behaviour. -/
inductive PingResult where
  | ok (rtt_millis : Nat)
  | err (msg : String)
deriving DecidableEq, Repr

/-- A `PingEvent { peer, result }`. -/
structure PingEvent where
  peer : PeerId
  result : PingResult
deriving DecidableEq, Repr

/-- `handle_ping_event` (handler.rs:381-421): on a successful ping in
client mode the code compares the peer to
`config.boot_nodes.first().unwrap().network_id` before logging; the
`unwrap` panics when the boot list is empty (`&&` short-circuits, so
server mode never reaches it). -/
def handle_ping_event (event : PingEvent) (config : NetworkConfig) : Except String Unit :=
  match event.result with
  | .ok _ =>
    if ¬ config.server_mode then
      match config.boot_nodes.head? with
      | none => .error "called Option unwrap on a None value"
      | some _ => .ok ()
    else .ok ()
  | .err _ => .ok ()

/-- Which rendezvous behaviour the swarm was built with. -/
inductive RendezvousSlot where
  | client
  | server
deriving DecidableEq, Repr

/-- `Network::rendezvous_behaviour` (identity.rs:93-104): the server
behaviour in server mode, the client behaviour otherwise. -/
def rendezvous_behaviour (is_server : Bool) : RendezvousSlot :=
  if is_server then .server else .client

/-- How a connection was established (libp2p `ConnectedPoint`). -/
inductive ConnectedPoint where
  | dialer
  | listener (send_back_addr : Multiaddr)
deriving DecidableEq, Repr

/-- Effects of the `ConnectionEstablished` arm. -/
structure ConnEstablishedResult where
  kb : RoutingTable
  discover_target : Option PeerId
deriving DecidableEq, Repr

/-- The `ConnectionEstablished` arm of `handle_swarm_event`
(handler.rs:107-147).  In client mode the code starts a rendezvous
`discover` against `boot_nodes.first().unwrap().network_id` — panicking on
an empty boot list; in server mode an inbound (listener-endpoint)
connection is inserted into the routing table under the effective
address. -/
def handle_connection_established (kb : RoutingTable) (config : NetworkConfig)
    (rendezvous : RendezvousSlot) (network_id : PeerId) (endpoint : ConnectedPoint) :
    Except String ConnEstablishedResult :=
  if ¬ config.server_mode then
    match rendezvous with
    | .client =>
      match config.boot_nodes.head? with
      | none => .error "called Option unwrap on a None value"
      | some bn => .ok ⟨kb, some bn.network_id⟩
    | .server => .ok ⟨kb, none⟩
  else
    match endpoint with
    | .listener send_back_addr =>
      if config.relay_dial_mode ∧ ¬ config.server_mode then
        match get_relayed_addr config network_id with
        | none => .error "called Option unwrap on a None value"
        | some addr => .ok ⟨add_address kb network_id addr, none⟩
      else .ok ⟨add_address kb network_id send_back_addr, none⟩
    | .dialer => .ok ⟨kb, none⟩

/-- Effects of the `IdentifyEvent::Received` arm. -/
structure IdentifyResult where
  kb : RoutingTable
  register_target : Option PeerId
deriving DecidableEq, Repr

/-- The address rewrite inside the `IdentifyEvent::Received` loop
(handler.rs:524-532): in client+relay-dial mode a non-boot peer's
advertised address is replaced by its relayed form; both the boot-node
comparison and the rewrite unwrap `boot_nodes.first()`. -/
def identify_effective_addr (config : NetworkConfig) (network_id : PeerId)
    (addr : Multiaddr) : Except String Multiaddr :=
  if ¬ config.server_mode ∧ config.relay_dial_mode then
    match config.boot_nodes.head? with
    | none => .error "called Option unwrap on a None value"
    | some bn =>
      if network_id = bn.network_id then .ok addr
      else
        match get_relayed_addr config network_id with
        | none => .error "called Option unwrap on a None value"
        | some a => .ok a
  else .ok addr

/-- The `for addr in info.listen_addrs` loop (handler.rs:517-567). -/
def identify_add_addrs (config : NetworkConfig) (network_id : PeerId)
    (addrs : List Multiaddr) (kb : RoutingTable) : Except String RoutingTable :=
  match addrs with
  | [] => .ok kb
  | a :: rest =>
    match identify_effective_addr config network_id a with
    | .error msg => .error msg
    | .ok ea => identify_add_addrs config network_id rest (add_address kb network_id ea)

/-- `handle_identify_event` on `IdentifyEvent::Received`
(handler.rs:506-581): adds each advertised listen address (rewritten per
mode), then in client mode re-registers at
`boot_nodes.first().unwrap().network_id` — panicking when the boot list is
empty. -/
def handle_identify_received (kb : RoutingTable) (config : NetworkConfig)
    (network_id : PeerId) (listen_addrs : List Multiaddr)
    (rendezvous : RendezvousSlot) : Except String IdentifyResult :=
  match identify_add_addrs config network_id listen_addrs kb with
  | .error msg => .error msg
  | .ok kb1 =>
    if ¬ config.server_mode then
      match config.boot_nodes.head? with
      | none => .error "called Option unwrap on a None value"
      | some bn =>
        match rendezvous with
        | .client => .ok ⟨kb1, some bn.network_id⟩
        | .server => .ok ⟨kb1, none⟩
    else .ok ⟨kb1, none⟩

/-! ## Bootstrap file loading (api/lib.rs:113-151) -/

/-- `str::starts_with` on the model's strings, structurally recursive so
that concrete instances evaluate in the kernel. -/
def starts_with_chars : List Char → List Char → Bool
  | _, [] => true
  | [], _ :: _ => false
  | c :: cs, p :: ps => c = p && starts_with_chars cs ps

/-- `x.starts_with(pat)`. -/
def str_starts_with (s pat : String) : Bool := starts_with_chars s.data pat.data

/-- Leftmost, non-overlapping split at every `<::>` occurrence
(`str::split("<::>")`), structurally recursive on the character list. -/
def split_sep4 : List Char → List Char → List (List Char)
  | acc, '<' :: ':' :: ':' :: '>' :: rest => acc.reverse :: split_sep4 [] rest
  | acc, c :: rest => split_sep4 (c :: acc) rest
  | acc, [] => [acc.reverse]

/-- The address-field split of `load_bootnodes` (api/lib.rs:120-128):
split on `<::>`, drop empty pieces. -/
def split_addresses (field : String) : List String :=
  ((split_sep4 [] field.data).map fun cs => String.mk cs).filter fun x => ¬ x.data.isEmpty

/-- The per-line address selection of `load_bootnodes` (api/lib.rs:126-136)
with the host's IPv6 reachability probe (`ipv6_supported()`, a live
network round trip) passed in as a parameter.  When the probe succeeds the
code filters the addresses that do NOT start with `/ip6`, takes index 1 of
that filtered list, and falls back to `address[0]` when absent; otherwise
it takes `address[0]`.  `none` models the early `return None` on an empty
address list. -/
def select_bootnode_addr (ipv6_supported : Bool) (address : List String) : Option String :=
  match address with
  | [] => none
  | a0 :: rest =>
    some (if ipv6_supported then
        match ((a0 :: rest).filter fun x => ¬ str_starts_with x "/ip6")[1]? with
        | some a => a
        | none => a0
      else a0)

/-- One parsed bootstrap entry: id plus selected address
(api/lib.rs:129-140). -/
def load_bootnode_entry (ipv6_supported : Bool) (network_id : PeerId)
    (addr_field : String) : Option BootNode :=
  (select_bootnode_addr ipv6_supported (split_addresses addr_field)).map
    fun multiaddr => ⟨network_id, multiaddr⟩

/-! ## Identity (identity.rs:71-81) -/

/-- Raw ed25519 secret-key bytes.  libp2p's
`ed25519::SecretKey::try_from_bytes` accepts exactly 32 bytes (every
32-byte string is a valid ed25519 scalar after clamping) and returns a
`DecodingError` otherwise. -/
structure SecretKey where
  bytes : List Nat
deriving DecidableEq, Repr

/-- `ed25519::SecretKey::try_from_bytes` (libp2p, outside this
repository), by its contract: length check only. -/
def secret_key_try_from_bytes (bytes : List Nat) : Except String SecretKey :=
  if bytes.length = 32 then .ok ⟨bytes⟩ else .error "Expected 32 bytes of a secret key"

/-- A keypair as held by `Network`; the public half is the deterministic
ed25519 derivation from the secret, kept symbolic. -/
structure Keypair where
  secret : SecretKey
deriving DecidableEq, Repr

/-- Outcome of `Network::from_bytes`: the Rust signature returns `Self`,
so the only failure mode is the panic of `.unwrap()`. -/
inductive FromBytesOutcome where
  | ok (keypair : Keypair)
  | panicked (msg : String)
deriving DecidableEq, Repr

/-- `Network::from_bytes` (identity.rs:71-81):
`ed25519::SecretKey::try_from_bytes(bytes).unwrap()` — a decoding error
(wrong length) becomes a panic; on success the keypair and identity are
derived deterministically from the bytes. -/
def network_from_bytes (bytes : List Nat) : FromBytesOutcome :=
  match secret_key_try_from_bytes bytes with
  | .ok sk => .ok ⟨sk⟩
  | .error e => .panicked e

/-! ## Lemmas about the handlers -/

theorem network_record_nodes_mem (boot_node_ids : List String) (requester : Option PeerId)
    (kb : RoutingTable) (nodes : List NetworkNode)
    (h : network_record_nodes boot_node_ids requester kb = .ok nodes) :
    ∀ n ∈ nodes, boot_node_ids.contains n.network_id = false ∧
      ∀ r, requester = some r → n.network_id ≠ r.to_base58 := by
  induction kb generalizing nodes with
  | nil =>
    simp only [network_record_nodes, Except.ok.injEq] at h
    subst h
    simp
  | cons e rest ih =>
    simp only [network_record_nodes] at h
    cases hkeep : network_record_filter boot_node_ids requester e.1 with
    | error msg =>
      simp only [hkeep] at h
      exact Except.noConfusion h
    | ok keep =>
      simp only [hkeep] at h
      cases htail : network_record_nodes boot_node_ids requester rest with
      | error msg =>
        simp only [htail] at h
        exact Except.noConfusion h
      | ok tail =>
        simp only [htail] at h
        have htailmem := ih tail htail
        cases hkb : keep with
        | false =>
          simp only [hkb, Bool.false_eq_true, if_false, Except.ok.injEq] at h
          subst h
          exact htailmem
        | true =>
          simp only [hkb, if_true, Except.ok.injEq] at h
          subst h
          have hcfalse : boot_node_ids.contains e.1.to_base58 = false := by
            cases hcv : boot_node_ids.contains e.1.to_base58 with
            | false => rfl
            | true =>
              have hm : e.1.to_base58 ∈ boot_node_ids := by simpa using hcv
              simp [network_record_filter, hm, hkb] at hkeep
          have hm2 : e.1.to_base58 ∉ boot_node_ids := by simpa using hcfalse
          intro n hn
          rcases List.mem_cons.mp hn with hne | hnt
          · subst hne
            refine ⟨hcfalse, ?_⟩
            intro r2 hr2 heq
            subst hr2
            simp [network_record_filter, hm2, hkb] at hkeep
            exact hkeep heq.symm
          · exact htailmem n hnt

theorem network_record_nodes_none_error (boot_node_ids : List String) (kb : RoutingTable)
    (hex : ∃ e ∈ kb, boot_node_ids.contains e.1.to_base58 = false) :
    network_record_nodes boot_node_ids none kb = .error "Requester id is None" := by
  induction kb with
  | nil => simp at hex
  | cons e rest ih =>
    cases hce : boot_node_ids.contains e.1.to_base58 with
    | false =>
      have hflt : network_record_filter boot_node_ids none e.1
          = .error "Requester id is None" := by
        have hm : e.1.to_base58 ∉ boot_node_ids := by simpa using hce
        simp [network_record_filter, hm]
      simp only [network_record_nodes, hflt]
    | true =>
      obtain ⟨e0, he0, hc0⟩ := hex
      have he0r : e0 ∈ rest := by
        rcases List.mem_cons.mp he0 with h0 | h0
        · subst h0
          rw [hce] at hc0
          exact absurd hc0 (by simp)
        · exact h0
      have hr := ih ⟨e0, he0r, hc0⟩
      have hflt : network_record_filter boot_node_ids none e.1 = .ok false := by
        have hm : e.1.to_base58 ∈ boot_node_ids := by simpa using hce
        simp [network_record_filter, hm]
      simp only [network_record_nodes, hflt, hr]

theorem network_record_nodes_all_boot (boot_node_ids : List String)
    (requester : Option PeerId) (kb : RoutingTable)
    (hall : ∀ e ∈ kb, boot_node_ids.contains e.1.to_base58 = true) :
    network_record_nodes boot_node_ids requester kb = .ok [] := by
  induction kb with
  | nil => rfl
  | cons e rest ih =>
    have hce : boot_node_ids.contains e.1.to_base58 = true :=
      hall e (List.mem_cons_self e rest)
    have hr := ih fun e2 he2 => hall e2 (List.mem_cons_of_mem e he2)
    have hflt : network_record_filter boot_node_ids requester e.1 = .ok false := by
      have hm : e.1.to_base58 ∈ boot_node_ids := by simpa using hce
      simp [network_record_filter, hm]
    simp only [network_record_nodes, hflt, hr, Bool.false_eq_true, if_false]

theorem get_known_nodes_not_boot (kb : RoutingTable) (config : NetworkConfig)
    (p : PeerId) (addrs : List Multiaddr)
    (h : (p, addrs) ∈ get_known_nodes kb config) :
    (config.boot_nodes.map fun b => b.network_id).contains p = false := by
  simp only [get_known_nodes, List.mem_filterMap] at h
  obtain ⟨e, _, hsome⟩ := h
  by_cases hc : (config.boot_nodes.map fun b => b.network_id).contains e.1
  · rw [if_pos (by simpa using hc)] at hsome
    exact Option.noConfusion hsome
  · rw [if_neg (by simpa using hc)] at hsome
    have hep : e.1 = p := congrArg Prod.fst (Option.some.inj hsome)
    rw [← hep]
    simpa using hc

/-! ## Sample data for concrete witnesses -/

/-- A peer-id-to-string injection helper. -/
theorem peerId_to_base58_inj {p q : PeerId} (h : p.to_base58 = q.to_base58) : p = q := by
  cases p
  cases q
  simp only [PeerId.to_base58] at h
  rw [h]

/-- The boot node of the repository's own tests (behaviour.rs:236-248). -/
def sampleBootNode : BootNode :=
  ⟨⟨"12D3KooWPjceQrSwdWXPyLLeABRXmuqt69Rg3sBYbU1Nft9HyQ6X"⟩, "/ip4/127.0.0.1/tcp/26117"⟩

/-- Client-mode config with one boot node, relay-dial off. -/
def sampleConfig : NetworkConfig :=
  ⟨[sampleBootNode], false, false, false, false, 26117, [], none⟩

/-- Same config but with one listener already recorded. -/
def c6Config : NetworkConfig :=
  ⟨[sampleBootNode], false, false, false, false, 26117, [7], none⟩

/-- Client-mode config whose boot list is empty — the fail-closed result of
a bootstrap load failure. -/
def emptyBootClientConfig : NetworkConfig :=
  ⟨[], false, false, false, false, 26117, [], none⟩

/-- The local peer of the repository's own tests (handler.rs:1023). -/
def localPeer : PeerId := ⟨"12D3KooWH3uVF6wv47WnArKHk5p6cvgCJEb74UTmxztmQDc298L3"⟩

/-! ## Claims -/

/-- C1: the claim that the `From<Vec<u8>>` decode paths return a typed
decode error and never read out of bounds fails on the code.  The unchecked
`unsafe { archived_root }` view locates the archived root at
`len - size_of::<Archived<T>>()` with no validation, so the empty byte
string — and any truncation of a valid encoding below the archived-root
size — underflows the offset computation and reads out of bounds; the
conversion's type `Vec<u8> -> Self` has no error channel at all (the typed
variants `RequestDeserializationFailed`/`ResponseDeserializationFailed` in
error.rs are never produced by these paths).  This theorem evaluates the
decode model at those failing inputs. -/
theorem C1_decode_unchecked_oob :
    decentNetRequestFromBytes [] = DecodeOutcome.undefinedBehavior ∧
    decentNetResponseFromBytes [] = DecodeOutcome.undefinedBehavior ∧
    decentNetRequestFromBytes ((decentNetRequestToBytes DecentNetRequest.Ping).take 8)
      = DecodeOutcome.undefinedBehavior ∧
    decentNetResponseFromBytes ((decentNetResponseToBytes DecentNetResponse.Pong).take 8)
      = DecodeOutcome.undefinedBehavior :=
  ⟨rfl, rfl, rfl, rfl⟩

/-- C2: for every constructible `DecentNetRequest` and `DecentNetResponse`
value, decoding the bytes produced by encoding it yields the value back:
`decode(encode(m)) = m` for both `From` conversion pairs of protocol.rs. -/
theorem C2_codec_roundtrip :
    (∀ m : DecentNetRequest,
      decentNetRequestFromBytes (decentNetRequestToBytes m) = DecodeOutcome.ok m) ∧
    (∀ m : DecentNetResponse,
      decentNetResponseFromBytes (decentNetResponseToBytes m) = DecodeOutcome.ok m) :=
  ⟨roundtrip_request, roundtrip_response⟩

/-- C3: for every config whose first boot node is `(id = R, addr = A)`, the
relayed listening address built by `Network::get_relayed_listening_addr` is
exactly the string `A/p2p/R/p2p-circuit` — with no trailing
`/p2p/<local-peer>` suffix — and the spec's concrete case evaluates to
`/ip4/127.0.0.1/tcp/26117/p2p/12D3KooWPjceQrSwdWXPyLLeABRXmuqt69Rg3sBYbU1Nft9HyQ6X/p2p-circuit`. -/
theorem C3_relayed_listening_addr :
    (∀ (config : NetworkConfig) (bn : BootNode) (rest : List BootNode),
      config.boot_nodes = bn :: rest →
      get_relayed_listening_addr config
        = some (bn.multiaddr ++ "/p2p/" ++ bn.network_id.b58 ++ "/p2p-circuit")) ∧
    get_relayed_listening_addr sampleConfig
      = some "/ip4/127.0.0.1/tcp/26117/p2p/12D3KooWPjceQrSwdWXPyLLeABRXmuqt69Rg3sBYbU1Nft9HyQ6X/p2p-circuit" := by
  constructor
  · intro config bn rest h
    simp [get_relayed_listening_addr, h, multiaddr_with_p2p, multiaddr_with_circuit]
  · rfl

/-- C3 witness: the general statement applied to the sample config. -/
theorem C3_relayed_listening_addr_witness :
    get_relayed_listening_addr sampleConfig
      = some (sampleBootNode.multiaddr ++ "/p2p/" ++ sampleBootNode.network_id.b58
          ++ "/p2p-circuit") :=
  C3_relayed_listening_addr.1 sampleConfig sampleBootNode [] rfl

/-- C4: the peer snapshot with boot nodes excluded never contains a boot
node's identifier, in either form: the `NetworkNodeRecord` built by
`get_network_record` for a requester contains no boot-node base58 id and
not the requester's own id, and `get_known_nodes` contains no boot-node
peer id. -/
theorem C4_boot_node_exclusion :
    (∀ (kb : RoutingTable) (config : NetworkConfig) (r : PeerId)
       (rec : NetworkNodeRecord) (n : NetworkNode),
       get_network_record kb (some r) config = .ok rec → n ∈ rec.nodes →
       (∀ b ∈ config.boot_nodes, n.network_id ≠ b.network_id.to_base58) ∧
       n.network_id ≠ r.to_base58) ∧
    (∀ (kb : RoutingTable) (config : NetworkConfig) (p : PeerId) (addrs : List Multiaddr),
       (p, addrs) ∈ get_known_nodes kb config →
       ∀ b ∈ config.boot_nodes, p ≠ b.network_id) := by
  constructor
  · intro kb config r rec n hok hn
    have hnodes : network_record_nodes
        (config.boot_nodes.map fun b => b.network_id.to_base58) (some r) kb
        = .ok rec.nodes := by
      simp only [get_network_record] at hok
      cases hx : network_record_nodes
          (config.boot_nodes.map fun b => b.network_id.to_base58) (some r) kb with
      | error msg =>
        rw [hx] at hok
        exact Except.noConfusion hok
      | ok nodes =>
        rw [hx] at hok
        have hrec : (⟨nodes⟩ : NetworkNodeRecord) = rec := Except.ok.inj hok
        rw [← hrec]
    obtain ⟨hcontains, hreq⟩ := network_record_nodes_mem _ _ _ _ hnodes n hn
    constructor
    · intro b hb heq
      have hmem : n.network_id ∈ config.boot_nodes.map fun b2 => b2.network_id.to_base58 :=
        List.mem_map.mpr ⟨b, hb, heq.symm⟩
      have hct : (config.boot_nodes.map fun b2 =>
          b2.network_id.to_base58).contains n.network_id = true := by
        simpa using hmem
      rw [hcontains] at hct
      exact Bool.noConfusion hct
    · exact hreq r rfl
  · intro kb config p addrs h b hb heq
    have hc := get_known_nodes_not_boot kb config p addrs h
    have hmem : p ∈ config.boot_nodes.map fun b2 => b2.network_id :=
      List.mem_map.mpr ⟨b, hb, heq.symm⟩
    have hct : (config.boot_nodes.map fun b2 => b2.network_id).contains p = true := by
      simpa using hmem
    rw [hc] at hct
    exact Bool.noConfusion hct

/-- C4 witness: a table holding one non-boot peer under the sample config;
the returned record excludes the requester id, and the known-nodes
snapshot excludes the boot node. -/
theorem C4_boot_node_exclusion_witness :
    (("QmX" : String) ≠ PeerId.to_base58 ⟨"QmReq"⟩) ∧
    ((⟨"QmX"⟩ : PeerId) ≠ sampleBootNode.network_id) := by
  constructor
  · exact (C4_boot_node_exclusion.1 [(⟨"QmX"⟩, ["/ip4/9.9.9.9/tcp/1"])] sampleConfig
      ⟨"QmReq"⟩ ⟨[⟨"QmX", ["/ip4/9.9.9.9/tcp/1"]⟩]⟩ ⟨"QmX", ["/ip4/9.9.9.9/tcp/1"]⟩
      rfl (by simp)).2
  · exact C4_boot_node_exclusion.2 [(⟨"QmX"⟩, ["/ip4/9.9.9.9/tcp/1"])] sampleConfig
      ⟨"QmX"⟩ ["/ip4/9.9.9.9/tcp/1"] (by decide) sampleBootNode (by decide)

/-- C6 counterexample: when a `NewListenAddr` event's address equals this
node's own relayed address outside relay-dial mode, the code removes every
OTHER recorded listener (`filter(|id| *id != listener_id)`), keeping the
one that produced the event: with listener 7 recorded and the event coming
from listener 9, `remove_listener` is called on 7 and not on 9 — the claim
says 9 and only 9 would be removed. -/
theorem C6_remove_listener_counterexample :
    handle_new_listen_addr c6Config localPeer 9
      "/ip4/127.0.0.1/tcp/26117/p2p/12D3KooWPjceQrSwdWXPyLLeABRXmuqt69Rg3sBYbU1Nft9HyQ6X/p2p-circuit/p2p/12D3KooWH3uVF6wv47WnArKHk5p6cvgCJEb74UTmxztmQDc298L3"
      = .ok (⟨[sampleBootNode], false, false, false, false, 26117, [7, 9], none⟩, [7]) ∧
    (9 : Nat) ∉ ([7] : List Nat) ∧ (7 : Nat) ∈ ([7] : List Nat) :=
  ⟨rfl, by decide, by decide⟩

/-- C6 amended: on a `NewListenAddr` event whose address equals this
node's own relayed address while relay-dial mode is off, the swarm driver
removes every OTHER recorded listener — each previously recorded listener
id different from the event's — and keeps the listener that produced the
event. -/
theorem C6_new_listen_addr_amended :
    ∀ (config : NetworkConfig) (local_peer_id : PeerId) (listener_id : Nat)
      (address : Multiaddr) (bn : BootNode) (rest : List BootNode)
      (cfg2 : NetworkConfig) (removed : List Nat),
      config.relay_dial_mode = false →
      config.boot_nodes = bn :: rest →
      address = multiaddr_with_p2p
        (multiaddr_with_circuit (multiaddr_with_p2p bn.multiaddr bn.network_id))
        local_peer_id →
      handle_new_listen_addr config local_peer_id listener_id address = .ok (cfg2, removed) →
      listener_id ∉ removed ∧
      (∀ i ∈ config.listener_ids, i ≠ listener_id → i ∈ removed) ∧
      (∀ i ∈ removed, i ∈ config.listener_ids ∧ i ≠ listener_id) := by
  intro config lp lid addr bn rest cfg2 removed hrel hboot haddr h
  subst haddr
  simp [handle_new_listen_addr, hrel, get_relayed_addr, hboot] at h
  obtain ⟨hcfg, hrem⟩ := h
  subst hrem
  refine ⟨?_, ?_, ?_⟩
  · intro hmem
    rcases List.mem_filter.mp hmem with ⟨_, hne⟩
    simp at hne
  · intro i hi hne
    exact List.mem_filter.mpr ⟨hi, by simpa using hne⟩
  · intro i hi
    rcases List.mem_filter.mp hi with ⟨hmem, hne⟩
    exact ⟨hmem, by simpa using hne⟩

/-- C6 witness: the amended statement applied to the concrete config with
listener 7 recorded and the event from listener 9. -/
theorem C6_new_listen_addr_amended_witness :
    (9 : Nat) ∉ ([7] : List Nat) ∧ (7 : Nat) ∈ ([7] : List Nat) := by
  have h := C6_new_listen_addr_amended c6Config localPeer 9
    (multiaddr_with_p2p
      (multiaddr_with_circuit
        (multiaddr_with_p2p sampleBootNode.multiaddr sampleBootNode.network_id)) localPeer)
    sampleBootNode [] ⟨[sampleBootNode], false, false, false, false, 26117, [7, 9], none⟩
    [7] rfl rfl rfl rfl
  exact ⟨h.1, h.2.1 7 (by decide) (by decide)⟩

/-- C7: the claim that a two-address line (IPv4 first, IPv6 second) selects
the IPv6 form when the IPv6 probe succeeds fails on the code: the filter in
`load_bootnodes` keeps the addresses NOT starting with `/ip6` and indexes
the remainder at 1, falling back to `address[0]`, so the IPv4 form is
selected even when IPv6 is reachable.  (The single-address half of the
claim does hold, as the last two conjuncts show.) -/
theorem C7_ipv6_selection_inverted :
    select_bootnode_addr true ["/ip4/127.0.0.1/tcp/26117", "/ip6/::1/tcp/26117"]
      = some "/ip4/127.0.0.1/tcp/26117" ∧
    load_bootnode_entry true ⟨"QmBoot"⟩ "/ip4/127.0.0.1/tcp/26117<::>/ip6/::1/tcp/26117"
      = some ⟨⟨"QmBoot"⟩, "/ip4/127.0.0.1/tcp/26117"⟩ ∧
    select_bootnode_addr false ["/ip4/127.0.0.1/tcp/26117", "/ip6/::1/tcp/26117"]
      = some "/ip4/127.0.0.1/tcp/26117" ∧
    select_bootnode_addr true ["/ip4/9.9.9.9/tcp/4001"] = some "/ip4/9.9.9.9/tcp/4001" ∧
    select_bootnode_addr false ["/ip4/9.9.9.9/tcp/4001"] = some "/ip4/9.9.9.9/tcp/4001" ∧
    ("/ip4/127.0.0.1/tcp/26117" : String) ≠ "/ip6/::1/tcp/26117" :=
  ⟨by decide, by decide, by decide, by decide, by decide, by decide⟩

/-- C8: the claim that with an empty boot node list every client-mode
swarm-event handler completes without panicking fails on the code: the
ConnectionEstablished, Ping (successful result) and IdentifyReceived arms
all evaluate `config.boot_nodes.first().unwrap()` in client mode, which
panics on the empty list.  This theorem evaluates the three handler models
at that state. -/
theorem C8_empty_bootlist_client_panics :
    handle_ping_event ⟨⟨"QmPeer"⟩, PingResult.ok 5⟩ emptyBootClientConfig
      = .error "called Option unwrap on a None value" ∧
    handle_connection_established [] emptyBootClientConfig
      (rendezvous_behaviour emptyBootClientConfig.server_mode) ⟨"QmPeer"⟩
      ConnectedPoint.dialer
      = .error "called Option unwrap on a None value" ∧
    handle_identify_received [] emptyBootClientConfig ⟨"QmPeer"⟩ []
      (rendezvous_behaviour emptyBootClientConfig.server_mode)
      = .error "called Option unwrap on a None value" :=
  ⟨rfl, rfl, rfl⟩

/-- C9 counterexample: for a wrong-length buffer, `Network::from_bytes`
does not fail with an `InvalidKeyMaterial` error — its signature returns
`Self` with no error channel, and the `.unwrap()` on the decoding error
aborts (panics) instead. -/
theorem C9_from_bytes_counterexample :
    network_from_bytes (List.replicate 31 0)
      = FromBytesOutcome.panicked "Expected 32 bytes of a secret key" := rfl

/-- C9 amended: for every buffer of the wrong length (≠ 32 bytes),
`Network::from_bytes` panics via `.unwrap()` on the decoding error rather
than returning a typed error; for every 32-byte buffer it succeeds, and
deterministically — the keypair is a function of the bytes alone. -/
theorem C9_from_bytes_amended :
    ∀ bytes : List Nat,
      (bytes.length = 32 → network_from_bytes bytes = .ok ⟨⟨bytes⟩⟩) ∧
      (bytes.length ≠ 32 →
        network_from_bytes bytes = .panicked "Expected 32 bytes of a secret key") := by
  intro bytes
  constructor
  · intro h
    simp [network_from_bytes, secret_key_try_from_bytes, h]
  · intro h
    simp [network_from_bytes, secret_key_try_from_bytes, h]

/-- C9 witness: the amended statement applied to a 32-byte buffer and the
empty buffer. -/
theorem C9_from_bytes_amended_witness :
    network_from_bytes (List.replicate 32 0) = .ok ⟨⟨List.replicate 32 0⟩⟩ ∧
    network_from_bytes [] = .panicked "Expected 32 bytes of a secret key" :=
  ⟨(C9_from_bytes_amended (List.replicate 32 0)).1 (by decide),
   (C9_from_bytes_amended []).2 (by decide)⟩

/-- C10: `get_network_record` with `requester_id = None` panics
("Requester id is None") as soon as the routing table holds a peer outside
the configured boot node list, and returns an empty record without
panicking when every entry is a boot node. -/
theorem C10_requester_none_panics :
    ∀ (kb : RoutingTable) (config : NetworkConfig),
      ((∃ e ∈ kb, ∀ b ∈ config.boot_nodes, e.1 ≠ b.network_id) →
        get_network_record kb none config = .error "Requester id is None") ∧
      ((∀ e ∈ kb, ∃ b ∈ config.boot_nodes, e.1 = b.network_id) →
        get_network_record kb none config = .ok ⟨[]⟩) := by
  intro kb config
  constructor
  · rintro ⟨e, he, hnb⟩
    have hc : (config.boot_nodes.map fun b =>
        b.network_id.to_base58).contains e.1.to_base58 = false := by
      cases hcv : (config.boot_nodes.map fun b =>
          b.network_id.to_base58).contains e.1.to_base58 with
      | false => rfl
      | true =>
        have hmem : e.1.to_base58 ∈ config.boot_nodes.map fun b =>
            b.network_id.to_base58 := by simpa using hcv
        obtain ⟨b, hb, hbeq⟩ := List.mem_map.mp hmem
        exact absurd (peerId_to_base58_inj hbeq.symm) (hnb b hb)
    have herr := network_record_nodes_none_error
      (config.boot_nodes.map fun b => b.network_id.to_base58) kb ⟨e, he, hc⟩
    simp only [get_network_record, herr]
    rfl
  · intro hall
    have hallc : ∀ e ∈ kb, (config.boot_nodes.map fun b =>
        b.network_id.to_base58).contains e.1.to_base58 = true := by
      intro e he
      obtain ⟨b, hb, hbeq⟩ := hall e he
      have hmem : e.1.to_base58 ∈ config.boot_nodes.map fun b2 =>
          b2.network_id.to_base58 :=
        List.mem_map.mpr ⟨b, hb, by rw [hbeq]⟩
      simpa using hmem
    have hok := network_record_nodes_all_boot
      (config.boot_nodes.map fun b => b.network_id.to_base58) none kb hallc
    simp only [get_network_record, hok]
    rfl

/-- C10 witness: a table with one non-boot peer makes the requesterless
call panic; a table holding only the boot node yields the empty record. -/
theorem C10_requester_none_panics_witness :
    get_network_record [((⟨"QmZ"⟩ : PeerId), ([] : List Multiaddr))] none sampleConfig
      = .error "Requester id is None" ∧
    get_network_record [(sampleBootNode.network_id, ([] : List Multiaddr))] none sampleConfig
      = .ok ⟨[]⟩ :=
  ⟨(C10_requester_none_panics [(⟨"QmZ"⟩, [])] sampleConfig).1
      ⟨(⟨"QmZ"⟩, []), by decide, by decide⟩,
   (C10_requester_none_panics [(sampleBootNode.network_id, [])] sampleConfig).2 (by decide)⟩

end DecentNet
